import Mathlib

/-!
# Verification of the stockbot news deduplication and delivery pipeline

A shallow embedding, in Lean 4, of the news pipeline of the `stockbot`
repository (`bot.py`, `storage.py`, `news_scraper.py`, `gemini_client.py`),
together with proofs and refutations of the design-level claims about it.

Modelling conventions:

* Python strings are Lean `String`s; the handful of Python string methods
  the code uses (`strip`, `upper`, `replace`, `split`, `int(...)`) are
  re-implemented below on `List Char`, restricted to ASCII where Python
  would consult full Unicode tables (`upper`, whitespace classes,
  non-ASCII digits).  None of the verified properties depends on the
  non-ASCII corners.
* External collaborators (the feed search endpoint, the article scraper,
  the summarizer, the Telegram send call) are oracle functions bundled in
  `Env`; calls that can raise in Python return `Except Unit _`.
* A Python exception that the code does not catch is modelled by an `err`
  flag threaded through the scheduler-run functions: once set, the rest of
  the run is skipped and the final state save does not happen (the
  persisted state remains the initial one).
* The news-state JSON document is modelled by `NewsState`: the per
  (chat, ticker) URL-history lists as a function, plus the `_meta`
  per-chat toggles.  The watchlist document's `chats` object is a list of
  `(chat-id-string, tickers)` pairs.
-/

/-! ## Python string primitives -/

/-- The ASCII whitespace characters recognised by Python's `str.strip()`
(space, tab, newline, carriage return, vertical tab, form feed). -/
def isSpc (c : Char) : Bool :=
  decide (c.toNat = 32 ∨ c.toNat = 9 ∨ c.toNat = 10 ∨ c.toNat = 13 ∨
          c.toNat = 11 ∨ c.toNat = 12)

/-- Leading-whitespace removal on a character list. -/
def stripFront (l : List Char) : List Char := l.dropWhile isSpc

/-- Python `str.strip()` on a character list: drop whitespace from both
ends. -/
def stripL (l : List Char) : List Char :=
  ((stripFront l).reverse.dropWhile isSpc).reverse

/-- Python `str.strip()`. -/
def pyStrip (s : String) : String := ⟨stripL s.data⟩

/-- Python `str.upper()` (ASCII range; `Char.toUpper` maps `a`-`z` to
`A`-`Z` and fixes everything else). -/
def pyUpper (s : String) : String := ⟨s.data.map Char.toUpper⟩

/-- One fuelled step of Python `str.replace(old, new)`: scan left to
right, replacing non-overlapping occurrences of `old`.  The fuel is the
length of the scanned list, which bounds the recursion; `replaceAllF`
agrees with Python's `replace` whenever `fuel ≥ l.length` and
`old ≠ []`. -/
def replaceAllF (old new : List Char) : Nat → List Char → List Char
  | _, [] => []
  | 0, l => l
  | fuel + 1, c :: cs =>
    if old ≠ [] ∧ old.isPrefixOf (c :: cs) then
      new ++ replaceAllF old new fuel ((c :: cs).drop old.length)
    else
      c :: replaceAllF old new fuel cs

/-- Python `str.replace(old, new)`. -/
def pyReplace (s old new : String) : String :=
  ⟨replaceAllF old.data new.data s.data.length s.data⟩

/-- Digit-and-underscore tail of a Python integer literal: digits with
single underscores allowed strictly between digits. -/
def pyDigitsGo (acc : Nat) : List Char → Option Nat
  | [] => some acc
  | '_' :: c :: cs =>
    if c.isDigit then pyDigitsGo (acc * 10 + (c.toNat - 48)) cs else none
  | ['_'] => none
  | c :: cs =>
    if c.isDigit then pyDigitsGo (acc * 10 + (c.toNat - 48)) cs else none

/-- An unsigned decimal literal as accepted by Python's `int()`. -/
def pyDigits : List Char → Option Nat
  | [] => none
  | c :: cs => if c.isDigit then pyDigitsGo (c.toNat - 48) cs else none

/-- Python `int(s)`: strip whitespace, optional sign, decimal digits with
underscore separators; `none` models the `ValueError` raised on anything
else. -/
def pyInt (s : String) : Option Int :=
  match (pyStrip s).data with
  | '+' :: cs => (pyDigits cs).map Int.ofNat
  | '-' :: cs => (pyDigits cs).map (fun n => -(n : Int))
  | cs => (pyDigits cs).map Int.ofNat

/-- Split at the first occurrence of `sep`, as Python `s.split(sep, 1)`
when it finds a separator; `none` when `sep` does not occur. -/
def splitFirst (sep : Char) : List Char → Option (List Char × List Char)
  | [] => none
  | c :: cs =>
    if c = sep then some ([], cs)
    else (splitFirst sep cs).map (fun p => (c :: p.1, p.2))

/-- Python `s.split(sep)` for a one-character separator: always returns
at least one (possibly empty) field. -/
def splitOnChar (sep : Char) : List Char → List (List Char)
  | [] => [[]]
  | c :: cs =>
    let r := splitOnChar sep cs
    if c = sep then [] :: r
    else
      match r with
      | h :: t => (c :: h) :: t
      | [] => [[c]]

/-- Boolean substring test on character lists. -/
def listContains (pat : List Char) : List Char → Bool
  | [] => pat.isEmpty
  | c :: t => pat.isPrefixOf (c :: t) || listContains pat t

/-- Boolean substring test on strings (Python `pat in s`). -/
def strContains (s pat : String) : Bool := listContains pat.data s.data

/-! ## Ticker normalisation (`bot.py`, `_code_only`) -/

/-- Function `_code_only` from `bot.py`:
`ticker.strip().upper().replace(".JK", "")`. -/
def codeOnly (ticker : String) : String :=
  pyReplace (pyUpper (pyStrip ticker)) ".JK" ""

/-! ## Dedup ledger record (`bot.py` lines 705-706) -/

/-- Python `l[-n:]`: the last `n` entries (the whole list when it is
shorter). -/
def takeLast (n : Nat) (l : List α) : List α := l.drop (l.length - n)

/-- The history update performed after each delivery:
`state[chat][code].append(link)` followed by
`state[chat][code] = state[chat][code][-40:]`. -/
def recordURL (hist : List String) (link : String) : List String :=
  takeLast 40 (hist ++ [link])

/-! ## Window gate (`bot.py`, `_within_quiet_hours_wib`) -/

/-- A wall-clock time of day in microseconds, matching the resolution of
the `datetime` comparison in the source (`now.replace(...)` zeroes the
second and microsecond of the window endpoints, while `now` itself keeps
them). -/
def timeUS (h m s us : Nat) : Nat := ((h * 60 + m) * 60 + s) * 1000000 + us

/-- Parse one `HH:MM` component: `s.split(":")` must yield exactly two
fields, both must parse as Python ints, and both must be accepted by
`datetime.replace` (hour `0..23`, minute `0..59`); any failure models the
exception caught by `_within_quiet_hours_wib`. -/
def parseHM (s : String) : Option (Nat × Nat) :=
  match splitOnChar ':' s.data with
  | [a, b] =>
    match pyInt ⟨a⟩, pyInt ⟨b⟩ with
    | some h, some m =>
      if h < 0 ∨ 23 < h ∨ m < 0 ∨ 59 < m then none
      else some (h.toNat, m.toNat)
    | _, _ => none
  | _ => none

/-- Parse a `"HH:MM-HH:MM"` window configuration: split once on `-`, then
parse both endpoints.  `none` models every malformed configuration whose
processing raises inside the `try` block of the source. -/
def parseWindow (cfg : String) : Option (Nat × Nat × Nat × Nat) :=
  match splitFirst '-' cfg.data with
  | none => none
  | some (a, b) =>
    match parseHM ⟨a⟩, parseHM ⟨b⟩ with
    | some (sh, sm), some (eh, em) => some (sh, sm, eh, em)
    | _, _ => none

/-- Function `_within_quiet_hours_wib` from `bot.py`: `True` when no window is
configured; otherwise `start <= now <= end` on the same calendar day,
with every parse failure caught and turned into `True` (fail-open). -/
def withinQuietHoursWib (cfg : String) (now : Nat) : Bool :=
  if cfg = "" then true
  else
    match parseWindow cfg with
    | none => true
    | some (sh, sm, eh, em) =>
      decide (timeUS sh sm 0 0 ≤ now ∧ now ≤ timeUS eh em 0 0)

/-! ## JSON documents and persistence (`storage.py`) -/

/-- A parsed JSON value, as produced by `json.load`. -/
inductive JVal where
  | jstr (s : String)
  | jnum (n : Int)
  | jbool (b : Bool)
  | jnull
  | jlist (xs : List JVal)
  | jobj (kvs : List (String × JVal))

/-- First-match key lookup in a JSON object (parsed objects have unique
keys). -/
def lookupJ (k : String) : List (String × JVal) → Option JVal
  | [] => none
  | (k', v) :: rest => if k' = k then some v else lookupJ k rest

mutual

/-- Python `repr` of a JSON-shaped value (approximate: strings are
single-quoted without escaping).  Only its restriction to non-string
scalars matters below. -/
def pyRepr : JVal → String
  | .jstr s => "'" ++ s ++ "'"
  | .jnum n => toString n
  | .jbool true => "True"
  | .jbool false => "False"
  | .jnull => "None"
  | .jlist xs => "[" ++ pyReprList xs ++ "]"
  | .jobj kvs => "\x7b" ++ pyReprObj kvs ++ "\x7d"

/-- Comma-joined `repr`s of list elements. -/
def pyReprList : List JVal → String
  | [] => ""
  | [x] => pyRepr x
  | x :: xs => pyRepr x ++ ", " ++ pyReprList xs

/-- Comma-joined `repr`s of object entries. -/
def pyReprObj : List (String × JVal) → String
  | [] => ""
  | [(k, v)] => "'" ++ k ++ "': " ++ pyRepr v
  | (k, v) :: kvs => "'" ++ k ++ "': " ++ pyRepr v ++ ", " ++ pyReprObj kvs

end

/-- Python `str(x)` on a JSON-shaped value. -/
def pyStr : JVal → String
  | .jstr s => s
  | v => pyRepr v

/-- Function `load_json(path, default)` from `storage.py`.  `content` is the file's
contents (`none` when the file does not exist), `parse` is the `json.load`
oracle (`none` models a parse exception).  Total by construction: neither
an absent file nor corrupt contents can raise. -/
def loadJson (parse : String → Option JVal) (content : Option String)
    (default : JVal) : JVal :=
  match content with
  | none => default
  | some s =>
    match parse s with
    | some v => v
    | none => default

/-- The two files `save_json` touches: the target path and the `.tmp`
sibling, each either absent or holding a complete string. -/
structure FileState where
  target : Option String
  tmp : Option String
deriving DecidableEq

/-- The observable filesystem states during one `save_json(path, data)`:
the initial state, a mid-write state in which the temp file holds an
arbitrary proper or improper portion `mid` of the serialisation, the
state after the temp write completes, and the state after the atomic
`os.replace(tmp, path)`.  The target path is only ever touched by the
final rename. -/
def saveJsonStates (fs : FileState) (ser mid : String) : List FileState :=
  [fs,
   { target := fs.target, tmp := some mid },
   { target := fs.target, tmp := some ser },
   { target := some ser, tmp := none }]

/-! ## Watchlist reading (`storage.py`, `get_watchlist`) -/

/-- Python's `<` on strings: strict lexicographic order by code point. -/
def lexLt : List Char → List Char → Bool
  | [], [] => false
  | [], _ :: _ => true
  | _ :: _, [] => false
  | a :: as, b :: bs =>
    if a.toNat < b.toNat then true
    else if b.toNat < a.toNat then false
    else lexLt as bs

/-- Python's `s < t` for strings. -/
def pyStrLt (s t : String) : Bool := lexLt s.data t.data

/-- Insert a string into a sorted duplicate-free list, keeping it sorted
and duplicate-free: the effect of one element on Python's
`sorted(set(...))`. -/
def insertSortedDedup (x : String) : List String → List String
  | [] => [x]
  | y :: ys =>
    if x = y then y :: ys
    else if pyStrLt x y then x :: y :: ys
    else y :: insertSortedDedup x ys

/-- Python `sorted(set(xs))` for strings. -/
def sortedDedup (xs : List String) : List String :=
  xs.foldr insertSortedDedup []

/-- The default document `get_watchlist` passes to `load_json`:
`{"chats": {}}`. -/
def defaultWatchDoc : JVal := .jobj [("chats", .jobj [])]

/-- Function `get_watchlist(watchlist_file, chat_id)` from `storage.py`, applied to
the already-loaded document.  `data.setdefault("chats", {})` raises
`AttributeError` when the document is not an object, and `chats.get(...)`
raises when the `chats` member is not an object: both are `.error ()`.
Otherwise the stored value for the chat is coerced to a list (`[]` when it
is not one) and normalised by
`sorted(set(str(x).upper().strip() for x in wl if str(x).strip()))`. -/
def getWatchlist (doc : JVal) (chatId : Int) : Except Unit (List String) :=
  match doc with
  | .jobj kvs =>
    match (lookupJ "chats" kvs).getD (.jobj []) with
    | .jobj chatKvs =>
      let wl := (lookupJ (toString chatId) chatKvs).getD (.jlist [])
      let elems := match wl with | .jlist xs => xs | _ => []
      let kept := elems.filter (fun x => !((pyStrip (pyStr x)) == ""))
      .ok (sortedDedup (kept.map (fun x => pyStrip (pyUpper (pyStr x)))))
    | _ => .error ()
  | _ => .error ()

/-- The full read path for a chat's watchlist: `load_json` with default
`{"chats": {}}`, then `get_watchlist`'s document processing. -/
def readWatchlist (parse : String → Option JVal) (content : Option String)
    (chatId : Int) : Except Unit (List String) :=
  getWatchlist (loadJson parse content defaultWatchDoc) chatId

/-! ## Candidate fetching (`bot.py`, `_fetch_news_for_code`) -/

/-- A feed entry as returned by the feed search endpoint: the `title` and
`link` attributes the source reads (already defaulted to `""` by the
`getattr(e, _, "") or ""` pattern). -/
structure Entry where
  title : String
  link : String
deriving DecidableEq

/-- A candidate news item `(label, title, link)` as produced by
`_fetch_news_for_code`. -/
structure Item where
  src : String
  title : String
  link : String
deriving DecidableEq

/-- Table `NEWS_DOMAINS` from `bot.py`, in declaration order. -/
def NEWS_DOMAINS : List (String × String) :=
  [("IDX", "idx.co.id"),
   ("InvestorID", "investor.id"),
   ("CNBC", "cnbcindonesia.com"),
   ("RTI", "rti.co.id")]

/-- The per-source collection loop of `_fetch_news_for_code`: skip entries
with an empty title or link, append `(label, title.strip(), link.strip())`
otherwise, and `break` as soon as the post-increment counter reaches
`NEWS_ITEMS_PER_SOURCE`.  `count` is the running counter. -/
def collectEntries (cap : Nat) (label : String) : List Entry → Nat → List Item
  | [], _ => []
  | e :: es, count =>
    if e.title = "" ∨ e.link = "" then collectEntries cap label es count
    else
      let item : Item := ⟨label, pyStrip e.title, pyStrip e.link⟩
      if cap ≤ count + 1 then [item]
      else item :: collectEntries cap label es (count + 1)

/-- The merged per-source results, in `NEWS_DOMAINS` declaration order.
The feed search endpoint is the oracle `feed`, indexed by the ticker code
and the source domain (the source builds the query
`f"{code} saham site:{domain}"` and fetches the Google News RSS for it;
the query construction is absorbed into the oracle). -/
def mergedResults (cap : Nat) (feed : String → String → List Entry)
    (code : String) : List Item :=
  (NEWS_DOMAINS.map (fun p => collectEntries cap p.1 (feed code p.2) 0)).flatten

/-- The keep-first link deduplication of `_fetch_news_for_code`; `seen` is
the accumulated `seen` set. -/
def dedupByLinkAux (seen : List String) : List Item → List Item
  | [] => []
  | it :: rest =>
    if it.link ∈ seen then dedupByLinkAux seen rest
    else it :: dedupByLinkAux (it.link :: seen) rest

/-- The `# de-dup by link` phase of `_fetch_news_for_code`. -/
def dedupByLink (l : List Item) : List Item := dedupByLinkAux [] l

/-- Function `_fetch_news_for_code(code)` from `bot.py`: upper-case and strip the
code, collect up to `itemsPerSource` entries per source in registry
order, deduplicate by link keeping first occurrences, and truncate to
`limitTotal` (`uniq[:NEWS_LIMIT_TOTAL]`). -/
def fetchNewsForCode (itemsPerSource limitTotal : Nat)
    (feed : String → String → List Entry) (code : String) : List Item :=
  let ucode := pyUpper (pyStrip code)
  (dedupByLink (mergedResults itemsPerSource feed ucode)).take limitTotal

/-- Drop everything through the first `://` of a URL. -/
def dropSchemeSep : List Char → Option (List Char)
  | ':' :: '/' :: '/' :: rest => some rest
  | _ :: rest => dropSchemeSep rest
  | [] => none

/-- Modelled from the spec: the host component of a URL (what
`urllib.parse.urlparse(url).netloc` returns for the links at hand).  The
source of `_fetch_news_for_code` contains no host or path parsing; this
definition exists only to *state* the host-match property the spec
attributes to the fetcher. -/
def urlHost (u : String) : String :=
  match dropSchemeSep u.data with
  | none => ""
  | some r => ⟨r.takeWhile (fun c => !(c = '/' || c = '?' || c = '#'))⟩

/-! ## The scheduler run (`bot.py`, `_job_auto_news_wrapper`) -/

/-- A scraped article (`news_scraper.Article`). -/
structure Article where
  title : String
  text : String

/-- The external collaborators of one scheduler run.  `feed` never raises
(`feedparser.parse` traps errors internally) and `scrape` never raises on
its network path (`_get_html` catches all exceptions and the guardrails
return `None`), so both are total; `summarize`
(`gemini_client.summarize_article`, whose `model.generate_content` call
can raise) and `send` (`context.bot.send_message`) return `Except`. -/
structure Env where
  feed : String → String → List Entry
  scrape : String → Option Article
  summarize : String → String → String → String → String → Except Unit (Option String)
  send : Int → String → Bool → Except Unit Unit

/-- The configuration surface of the run, read from the environment when
the source module loads (`int(os.getenv(...))` with defaults 1, 5, 2, 6
and an empty allow-list). -/
structure Config where
  perTickerMaxNew : Nat
  perChatMaxPerRun : Nat
  itemsPerSource : Nat
  limitTotal : Nat
  allowedGroupIds : List Int

/-- The news-state document: per-(chat, ticker) URL histories plus the
`_meta.autonews_chat` per-chat toggles (absent entries already defaulted
to `true`, per `per_chat.get(str(chat_id), True)`). -/
structure NewsState where
  hist : String → String → List String
  toggles : Int → Bool

/-- Point update of one (chat, ticker) history. -/
def setHist (st : NewsState) (c k : String) (v : List String) : NewsState :=
  { st with hist := fun c' k' => if c' = c ∧ k' = k then v else st.hist c' k' }

/-- One successfully delivered message. -/
structure Delivery where
  chat : Int
  code : String
  link : String
  text : String
  markdown : Bool
deriving DecidableEq

/-- The `try/except` send of `_job_auto_news_wrapper` (lines 700-703):
send with Markdown formatting; on failure retry exactly once with
`msg.replace("*", "").replace("_", "")` as plain text.  A failure of the
retry is uncaught and propagates. -/
def stripMarkup (s : String) : String :=
  ⟨s.data.filter (fun c => !(c = '*' || c = '_'))⟩

/-- See `stripMarkup`; returns the delivery that actually went out. -/
def sendWithRetry (env : Env) (chatId : Int) (code link msg : String) :
    Except Unit Delivery :=
  match env.send chatId msg true with
  | .ok _ => .ok ⟨chatId, code, link, msg, true⟩
  | .error _ =>
    match env.send chatId (stripMarkup msg) false with
    | .ok _ => .ok ⟨chatId, code, link, stripMarkup msg, false⟩
    | .error e => .error e

/-- The message composed for one candidate (summary and headline-only
variants of `bot.py` lines 683-698). -/
def composeMsg (code : String) (it : Item) (summary : Option String) : String :=
  match summary with
  | some s =>
    "📰 *News update " ++ code ++ "*\n" ++
    "**Sumber:** " ++ it.src ++ "\n" ++
    "**Judul:** " ++ it.title ++ "\n\n" ++
    s ++ "\n\n" ++
    "🔗 " ++ it.link ++ "\n" ++
    "_Ringkasan AI (parafrase), baca sumber untuk detail._"
  | none =>
    "📰 *News update " ++ code ++ "*\n" ++
    "**Sumber:** " ++ it.src ++ "\n" ++
    "**Judul:** " ++ it.title ++ "\n" ++
    "🔗 " ++ it.link

/-- Result of the innermost candidate loop: the updated history list for
the (chat, code) pair, the deliveries made, the updated `sent_this_run`
counter, and whether an uncaught exception escaped (in which case the
remaining work of the whole run is skipped and the final save never
happens). -/
structure ItemsRes where
  hist : List String
  ds : List Delivery
  sent : Nat
  err : Bool

/-- The `for src, title, link in items:` loop of `_job_auto_news_wrapper`
(lines 668-716) over one ticker's candidates.  `already` is the `set(...)`
snapshot taken before the loop and never updated inside it; `hist` is the
live `state[chat][code]` list; `newSent` and `sent` are
`new_sent_for_ticker` and `sent_this_run`.  An exception from
`summarize_article` or from the plain-text retry send is uncaught. -/
def processItems (cfg : Config) (env : Env) (chatId : Int) (code : String)
    (already : List String) : List Item → List String → Nat → Nat → ItemsRes
  | [], hist, _, sent => ⟨hist, [], sent, false⟩
  | it :: rest, hist, newSent, sent =>
    if it.link ∈ already then
      processItems cfg env chatId code already rest hist newSent sent
    else
      let summaryR : Except Unit (Option String) :=
        match env.scrape it.link with
        | some a =>
          env.summarize (if a.title = "" then it.title else a.title)
            it.src code it.link a.text
        | none => .ok none
      match summaryR with
      | .error _ => ⟨hist, [], sent, true⟩
      | .ok summary =>
        match sendWithRetry env chatId code it.link (composeMsg code it summary) with
        | .error _ => ⟨hist, [], sent, true⟩
        | .ok d =>
          let hist' := recordURL hist it.link
          let newSent' := newSent + 1
          let sent' := sent + 1
          if cfg.perTickerMaxNew ≤ newSent' then ⟨hist', [d], sent', false⟩
          else if cfg.perChatMaxPerRun ≤ sent' then ⟨hist', [d], sent', false⟩
          else
            let r := processItems cfg env chatId code already rest hist' newSent' sent'
            ⟨r.hist, d :: r.ds, r.sent, r.err⟩

/-- Result of processing one ticker (or a list of tickers, or a chat):
updated news state, deliveries, `sent_this_run`, uncaught-exception
flag. -/
structure StepRes where
  st : NewsState
  ds : List Delivery
  sent : Nat
  err : Bool

/-- One iteration of the `for tkr in tickers:` loop: normalise the ticker
to a code, snapshot the history, fetch candidates, and run the candidate
loop with `new_sent_for_ticker = 0`. -/
def processTicker (cfg : Config) (env : Env) (chatS : String) (chatId : Int)
    (tkr : String) (st : NewsState) (sent : Nat) : StepRes :=
  let code := codeOnly tkr
  let hist := st.hist chatS code
  let items := fetchNewsForCode cfg.itemsPerSource cfg.limitTotal env.feed code
  let r := processItems cfg env chatId code hist items hist 0 sent
  ⟨setHist st chatS code r.hist, r.ds, r.sent, r.err⟩

/-- The `for tkr in tickers:` loop: after each ticker, `break` when
`sent_this_run >= AUTO_NEWS_PER_CHAT_MAX_PER_RUN`; an uncaught exception
aborts the rest. -/
def processTickers (cfg : Config) (env : Env) (chatS : String) (chatId : Int) :
    List String → NewsState → Nat → StepRes
  | [], st, sent => ⟨st, [], sent, false⟩
  | tkr :: rest, st, sent =>
    let r := processTicker cfg env chatS chatId tkr st sent
    if r.err then ⟨r.st, r.ds, r.sent, true⟩
    else if cfg.perChatMaxPerRun ≤ r.sent then ⟨r.st, r.ds, r.sent, false⟩
    else
      let r' := processTickers cfg env chatS chatId rest r.st r.sent
      ⟨r'.st, r.ds ++ r'.ds, r'.sent, r'.err⟩

/-- Outcome of a whole run: the state as persisted by `_save_news_state`
(the *initial* state when an uncaught exception skipped the save), the
deliveries that went out, and the exception flag. -/
structure RunOut where
  st : NewsState
  ds : List Delivery
  err : Bool

/-- The `for chat_id_str, tickers in filtered["chats"].items():` loop of
`_job_auto_news_wrapper`: parse the chat id (`continue` on failure),
apply the allow-list, then process the chat's tickers (truncated to 25,
or `[]` when the stored value is not a list — the `Option` on the ticker
list) with `sent_this_run = 0`. -/
def runChats (cfg : Config) (env : Env) :
    List (String × Option (List String)) → NewsState →
    NewsState × List Delivery × Bool
  | [], st => (st, [], false)
  | (key, tv) :: rest, st =>
    match pyInt key with
    | none => runChats cfg env rest st
    | some cid =>
      if cfg.allowedGroupIds ≠ [] ∧ cid ∉ cfg.allowedGroupIds then
        runChats cfg env rest st
      else
        let r := processTickers cfg env key cid ((tv.getD []).take 25) st 0
        if r.err then (r.st, r.ds, true)
        else
          let (st', ds', e') := runChats cfg env rest r.st
          (st', r.ds ++ ds', e')

/-- Function `_job_auto_news_wrapper` from `bot.py`: the gates
(`AUTO_NEWS_ENABLED`, `_within_quiet_hours_wib`), the per-chat toggle
filter (each key that parses as an int and whose toggle — read back from
the same persisted state — is on), then the delivery loop, then
`_save_news_state`.  On an uncaught exception the save is skipped, so the
persisted state in `RunOut.st` is the initial one. -/
def jobAutoNewsWrapper (cfg : Config) (env : Env) (enabled : Bool)
    (quietCfg : String) (now : Nat)
    (watch : List (String × Option (List String))) (st : NewsState) : RunOut :=
  if enabled = false then ⟨st, [], false⟩
  else if withinQuietHoursWib quietCfg now = false then ⟨st, [], false⟩
  else
    let filtered := watch.filter (fun p =>
      match pyInt p.1 with
      | some cid => st.toggles cid
      | none => false)
    let (st', ds, err) := runChats cfg env filtered st
    if err then ⟨st, ds, true⟩ else ⟨st', ds, false⟩

/-! ## Concrete example inputs for witnesses and counterexamples -/

/-- A feed response in which the entry attributed to the IDX source lives
on a foreign host. -/
def exFeedC2 : String → String → List Entry := fun _ domain =>
  if domain = "idx.co.id" then [⟨"Some title", "https://evil.com/x"⟩] else []

/-- A feed response with two distinct IDX entries, used to exhibit the
per-source cap off-by-one at cap `0`. -/
def exFeedC7 : String → String → List Entry := fun _ domain =>
  if domain = "idx.co.id" then [⟨"t1", "l1"⟩, ⟨"t2", "l2"⟩] else []

/-- Environment for the `dedup_no_resend` witness: the IDX feed returns
exactly the already-recorded url. -/
def exEnvC1 : Env :=
  { feed := fun _ domain =>
      if domain = "idx.co.id" then [⟨"t", "u1"⟩] else []
    scrape := fun _ => none
    summarize := fun _ _ _ _ _ => .ok none
    send := fun _ _ _ => .ok () }

/-- News state for the `dedup_no_resend` witness: `u1` already recorded
for chat `100`, ticker `BBCA`. -/
def exStC1 : NewsState :=
  ⟨fun c k => if c = "100" ∧ k = "BBCA" then ["u1"] else [], fun _ => true⟩

/-- Default configuration of the source (`AUTO_NEWS_PER_TICKER_MAX_NEW=1`,
`AUTO_NEWS_PER_CHAT_MAX_PER_RUN=5`, `NEWS_ITEMS_PER_SOURCE=2`,
`NEWS_LIMIT_TOTAL=6`, empty allow-list). -/
def cfgDefault : Config := ⟨1, 5, 2, 6, []⟩

/-- Environment for the C3 counterexample: two fresh IDX items for the
same code. -/
def exEnvC3 : Env :=
  { feed := fun code domain =>
      if domain = "idx.co.id" ∧ code = "BBCA" then
        [⟨"t1", "l1"⟩, ⟨"t2", "l2"⟩]
      else []
    scrape := fun _ => none
    summarize := fun _ _ _ _ _ => .ok none
    send := fun _ _ _ => .ok () }

/-- Empty news state with all toggles on. -/
def exStEmpty : NewsState := ⟨fun _ _ => [], fun _ => true⟩

/-- Watchlist for the C3 counterexample: the same ticker code listed
twice (`"BBCA"` and `"BBCA.JK"` both normalise to code `BBCA`). -/
def exWatchC3 : List (String × Option (List String)) :=
  [("100", some ["BBCA", "BBCA.JK"])]

/-- Environment for the C4 counterexample: every send attempt fails. -/
def exEnvC4 : Env :=
  { feed := fun _ domain =>
      if domain = "idx.co.id" then [⟨"t", "l1"⟩] else []
    scrape := fun _ => none
    summarize := fun _ _ _ _ _ => .ok none
    send := fun _ _ _ => .error () }

/-- Watchlist with one chat and one ticker. -/
def exWatchOne : List (String × Option (List String)) :=
  [("100", some ["BBCA"])]

/-- Environment for the `send_retry_spec` witness: formatted sends fail,
plain-text sends succeed. -/
def exEnvC4b : Env :=
  { feed := fun _ _ => []
    scrape := fun _ => none
    summarize := fun _ _ _ _ _ => .ok none
    send := fun _ _ markdown => if markdown then .error () else .ok () }

/-- Environment for the C5 counterexample: scraping succeeds, the
summarizer raises. -/
def exEnvC5 : Env :=
  { feed := fun _ domain =>
      if domain = "idx.co.id" then [⟨"t1", "l1"⟩, ⟨"t2", "l2"⟩] else []
    scrape := fun _ => some ⟨"T", "body"⟩
    summarize := fun _ _ _ _ _ => .error ()
    send := fun _ _ _ => .ok () }

/-- A `json.load` oracle that parses the file `"[]"` into a top-level
JSON array. -/
def exParseC10 : String → Option JVal := fun s =>
  if s = "[]" then some (.jlist []) else none

/-- Document for the `getWatchlist_spec` witness: mixed-case, padded and
duplicated entries plus a non-string entry. -/
def exDocC10 : List (String × JVal) :=
  [("chats", .jobj
    [("100", .jlist [.jstr " bbca ", .jstr "BBCA", .jstr "tlkm", .jnum 5])])]

/-! ## C6: the history cap -/

/-- C6: after any record of a delivered url, the stored url history list
for the (chat, ticker) pair has length at most 40; the result is a suffix
of the old list with the url appended (so insertion order of survivors is
preserved and only the oldest entries are dropped); under the cap nothing
is evicted, and over it exactly the oldest entries are evicted. -/
theorem recordURL_spec (h : List String) (u : String) :
    (recordURL h u).length ≤ 40 ∧
    recordURL h u <:+ h ++ [u] ∧
    (h.length < 40 → recordURL h u = h ++ [u]) ∧
    (40 ≤ h.length → recordURL h u = (h ++ [u]).drop (h.length + 1 - 40)) := by
  refine ⟨?_, List.drop_suffix _ _, ?_, ?_⟩
  · simp only [recordURL, takeLast, List.length_drop, List.length_append,
      List.length_singleton]
    omega
  · intro hl
    simp only [recordURL, takeLast, List.length_append, List.length_singleton]
    rw [show h.length + 1 - 40 = 0 by omega, List.drop_zero]
  · intro _
    simp [recordURL, takeLast]

/-- Witness for `recordURL_spec` at a full 40-entry history: recording one
more url evicts exactly the oldest entry. -/
theorem recordURL_spec_witness :
    40 ≤ (List.replicate 40 "a").length ∧
    recordURL (List.replicate 40 "a") "b" =
      (List.replicate 40 "a" ++ ["b"]).drop ((List.replicate 40 "a").length + 1 - 40) :=
  ⟨by simp, (recordURL_spec (List.replicate 40 "a") "b").2.2.2 (by simp)⟩

/-! ## C8: the window gate -/

/-- C8: the window gate is `true` at every clock time when no window
string is configured; for the window `"07:30-16:30"` it is `true` at
08:00 and `false` at 18:00, and the interval is inclusive of both
endpoints (`true` at exactly 07:30:00.000000 and 16:30:00.000000); and
every configuration string that fails to parse (the exception path of
`_within_quiet_hours_wib`) fails open, returning `true`. -/
theorem windowGate_spec :
    (∀ now, withinQuietHoursWib "" now = true) ∧
    withinQuietHoursWib "07:30-16:30" (timeUS 8 0 0 0) = true ∧
    withinQuietHoursWib "07:30-16:30" (timeUS 18 0 0 0) = false ∧
    withinQuietHoursWib "07:30-16:30" (timeUS 7 30 0 0) = true ∧
    withinQuietHoursWib "07:30-16:30" (timeUS 16 30 0 0) = true ∧
    (∀ cfg now, parseWindow cfg = none → withinQuietHoursWib cfg now = true) := by
  refine ⟨fun _ => rfl, by decide, by decide, by decide, by decide, ?_⟩
  intro cfg now hp
  unfold withinQuietHoursWib
  by_cases hc : cfg = ""
  · rw [if_pos hc]
  · rw [if_neg hc, hp]

/-- Witness for `windowGate_spec` on a concrete malformed configuration. -/
theorem windowGate_spec_witness :
    parseWindow "banana" = none ∧ withinQuietHoursWib "banana" 12345 = true :=
  ⟨by decide, windowGate_spec.2.2.2.2.2 "banana" 12345 (by decide)⟩

/-! ## C9: persistence -/

/-- C9: loading a persisted document whose file is absent, or whose
contents fail to parse, returns the supplied default (and `loadJson` is a
total function, so it never raises); and during a save the target path
always holds either the complete old document or the complete new
serialisation — the temp-file write never touches it, and the final
atomic rename installs the complete new document. -/
theorem storage_spec :
    (∀ parse d, loadJson parse none d = d) ∧
    (∀ parse s d, parse s = none → loadJson parse (some s) d = d) ∧
    (∀ fs ser mid, ∀ s ∈ saveJsonStates fs ser mid,
      s.target = fs.target ∨ s.target = some ser) ∧
    (∀ fs ser mid,
      (saveJsonStates fs ser mid).getLast? = some ⟨some ser, none⟩) := by
  refine ⟨fun _ _ => rfl, ?_, ?_, fun _ _ _ => rfl⟩
  · intro parse s d hp
    simp [loadJson, hp]
  · intro fs ser mid s hs
    simp only [saveJsonStates, List.mem_cons, List.mem_singleton,
      List.not_mem_nil, or_false] at hs
    rcases hs with h | h | h | h <;> subst h <;> simp

/-- Witness for `storage_spec`: a concrete corrupt load returns the
default, and a concrete mid-write state leaves the old target intact. -/
theorem storage_spec_witness :
    loadJson (fun _ => none) (some "oops") JVal.jnull = JVal.jnull ∧
    ((⟨some "old", some "pa"⟩ : FileState).target =
        (⟨some "old", none⟩ : FileState).target ∨
      (⟨some "old", some "pa"⟩ : FileState).target = some "new") :=
  ⟨storage_spec.2.1 (fun _ => none) "oops" JVal.jnull rfl,
   storage_spec.2.2.1 ⟨some "old", none⟩ "new" "pa" ⟨some "old", some "pa"⟩
     (by simp [saveJsonStates])⟩

/-! ## Fetcher lemmas -/

/-- Membership in a per-source collection: every accepted item carries the
source's label and is the stripped form of a feed entry with nonempty
title and link — these are the only acceptance conditions the loop
checks. -/
theorem mem_collectEntries {cap : Nat} {label : String} {it : Item} :
    ∀ {es : List Entry} {count : Nat}, it ∈ collectEntries cap label es count →
      it.src = label ∧ ∃ e ∈ es, e.title ≠ "" ∧ e.link ≠ "" ∧
        it.title = pyStrip e.title ∧ it.link = pyStrip e.link := by
  intro es
  induction es with
  | nil => intro count h; simp [collectEntries] at h
  | cons e es ih =>
    intro count h
    by_cases hskip : e.title = "" ∨ e.link = ""
    · rw [collectEntries, if_pos hskip] at h
      obtain ⟨hsrc, e', he', rest⟩ := ih h
      exact ⟨hsrc, e', List.mem_cons_of_mem _ he', rest⟩
    · rw [collectEntries, if_neg hskip] at h
      push_neg at hskip
      by_cases hcap : cap ≤ count + 1
      · rw [if_pos hcap] at h
        simp only [List.mem_singleton] at h
        subst h
        exact ⟨rfl, e, List.mem_cons_self _ _, hskip.1, hskip.2, rfl, rfl⟩
      · rw [if_neg hcap] at h
        rcases List.mem_cons.mp h with h | h
        · subst h
          exact ⟨rfl, e, List.mem_cons_self _ _, hskip.1, hskip.2, rfl, rfl⟩
        · obtain ⟨hsrc, e', he', rest⟩ := ih h
          exact ⟨hsrc, e', List.mem_cons_of_mem _ he', rest⟩

/-- The per-source collection is bounded by the cap (counted from the
running counter), provided the counter is still strictly below it. -/
theorem collectEntries_length {cap : Nat} {label : String} :
    ∀ {es : List Entry} {count : Nat}, count < cap →
      (collectEntries cap label es count).length + count ≤ cap := by
  intro es
  induction es with
  | nil =>
    intro count h
    simp only [collectEntries, List.length_nil]
    omega
  | cons e es ih =>
    intro count h
    by_cases hskip : e.title = "" ∨ e.link = ""
    · rw [collectEntries, if_pos hskip]; exact ih h
    · rw [collectEntries, if_neg hskip]
      by_cases hcap : cap ≤ count + 1
      · rw [if_pos hcap]
        simp only [List.length_singleton]
        omega
      · rw [if_neg hcap]
        have hrec := ih (show count + 1 < cap by omega)
        simp only [List.length_cons]
        omega

/-- The deduplicated list is a sublist of its input. -/
theorem dedupByLinkAux_sublist : ∀ (seen : List String) (l : List Item),
    List.Sublist (dedupByLinkAux seen l) l := by
  intro seen l
  induction l generalizing seen with
  | nil => simp [dedupByLinkAux]
  | cons it rest ih =>
    rw [dedupByLinkAux]
    by_cases hmem : it.link ∈ seen
    · rw [if_pos hmem]; exact (ih seen).cons _
    · rw [if_neg hmem]; exact (ih _).cons₂ _

/-- Keep-first deduplication: the output's links avoid `seen` and are
pairwise distinct, and every output item is the *first* item of the input
bearing its link. -/
theorem dedupByLinkAux_spec : ∀ (seen : List String) (l : List Item),
    ((dedupByLinkAux seen l).map Item.link).Nodup ∧
    ∀ it ∈ dedupByLinkAux seen l, it.link ∉ seen ∧
      l.find? (fun x => decide (x.link = it.link)) = some it := by
  intro seen l
  induction l generalizing seen with
  | nil => simp [dedupByLinkAux]
  | cons h t ih =>
    rw [dedupByLinkAux]
    by_cases hmem : h.link ∈ seen
    · rw [if_pos hmem]
      obtain ⟨ihnd, ihall⟩ := ih seen
      refine ⟨ihnd, fun it hit => ?_⟩
      obtain ⟨hnot, hfind⟩ := ihall it hit
      have hne : h.link ≠ it.link := fun he => hnot (he ▸ hmem)
      refine ⟨hnot, ?_⟩
      rw [List.find?_cons_of_neg, hfind]
      simpa using hne
    · rw [if_neg hmem]
      obtain ⟨ihnd, ihall⟩ := ih (h.link :: seen)
      constructor
      · simp only [List.map_cons, List.nodup_cons]
        refine ⟨fun hin => ?_, ihnd⟩
        obtain ⟨it, hit, hlink⟩ := List.mem_map.mp hin
        exact (ihall it hit).1 (hlink ▸ List.mem_cons_self _ _)
      · intro it hit
        rcases List.mem_cons.mp hit with he | hit'
        · subst he
          exact ⟨hmem, by rw [List.find?_cons_of_pos _ (by simp)]⟩
        · obtain ⟨hnot, hfind⟩ := ihall it hit'
          have hne : h.link ≠ it.link := fun he =>
            hnot (he ▸ List.mem_cons_self _ _)
          refine ⟨fun hs => hnot (List.mem_cons_of_mem _ hs), ?_⟩
          rw [List.find?_cons_of_neg, hfind]
          simpa using hne

/-! ## C2: the (absent) host/path filter -/

/-- C2 counterexample: `_fetch_news_for_code` returns, attributed to the
IDX source, an entry whose link's host does not even contain the IDX
domain — no host (or path) check is applied, so the claimed filter does
not exist. -/
theorem fetch_hostFilter_counterexample :
    fetchNewsForCode 2 6 exFeedC2 "BBCA" =
      [⟨"IDX", "Some title", "https://evil.com/x"⟩] ∧
    strContains (urlHost "https://evil.com/x") "idx.co.id" = false := by
  decide

/-- C2 amended: every item returned by the candidate fetcher is the
whitespace-stripped form of an entry of its attributed source's feed
query whose title and link are nonempty — those are the *only* per-entry
acceptance conditions; no host-match or path-prefix check is performed
(source restriction is delegated to the `site:` clause of the query sent
to the feed endpoint). -/
theorem fetch_accepts_any_host (ips lt : Nat)
    (feed : String → String → List Entry) (code : String) (it : Item)
    (hm : it ∈ fetchNewsForCode ips lt feed code) :
    ∃ label domain, (label, domain) ∈ NEWS_DOMAINS ∧ it.src = label ∧
      ∃ e ∈ feed (pyUpper (pyStrip code)) domain,
        e.title ≠ "" ∧ e.link ≠ "" ∧
        it.title = pyStrip e.title ∧ it.link = pyStrip e.link := by
  simp only [fetchNewsForCode] at hm
  have hm2 := List.mem_of_mem_take hm
  have hm3 : it ∈ mergedResults ips feed (pyUpper (pyStrip code)) :=
    (dedupByLinkAux_sublist [] _).subset hm2
  simp only [mergedResults, List.mem_flatten, List.mem_map] at hm3
  obtain ⟨l, ⟨p, hp, hl⟩, hit⟩ := hm3
  subst hl
  obtain ⟨hsrc, e, he, rest⟩ := mem_collectEntries hit
  exact ⟨p.1, p.2, hp, hsrc, e, he, rest⟩

/-- Witness for `fetch_accepts_any_host` at the concrete foreign-host
feed: the returned item is traceable to the IDX feed entry. -/
theorem fetch_accepts_any_host_witness :
    (⟨"IDX", "Some title", "https://evil.com/x"⟩ : Item) ∈
      fetchNewsForCode 2 6 exFeedC2 "BBCA" ∧
    ∃ label domain, (label, domain) ∈ NEWS_DOMAINS ∧
      (⟨"IDX", "Some title", "https://evil.com/x"⟩ : Item).src = label ∧
      ∃ e ∈ exFeedC2 (pyUpper (pyStrip "BBCA")) domain,
        e.title ≠ "" ∧ e.link ≠ "" ∧
        (⟨"IDX", "Some title", "https://evil.com/x"⟩ : Item).title = pyStrip e.title ∧
        (⟨"IDX", "Some title", "https://evil.com/x"⟩ : Item).link = pyStrip e.link :=
  ⟨by decide, fetch_accepts_any_host 2 6 exFeedC2 "BBCA" _ (by decide)⟩

/-! ## C7: merge, per-source cap, keep-first dedup, global truncation -/

/-- C7 counterexample: with `NEWS_ITEMS_PER_SOURCE = 0` the collection
loop still accepts one entry for the source before its post-increment
`break` check fires, so the per-source cap is exceeded. -/
theorem fetch_perSourceCap_counterexample :
    ¬ (fetchNewsForCode 0 6 exFeedC7 "BBCA").countP
        (fun it => decide (it.src = "IDX")) ≤ 0 := by
  decide

/-- C7 amended: the fetch result is a sublist of the in-registry-order
merged per-source results (so merge order is preserved); its length is at
most the global cap; its links are pairwise distinct; every returned item
is the *first* item of the merged list bearing its link (so of two
sources returning the identical URL only the first survives, with its
label); and — provided the per-source cap is at least 1 — each source
contributes at most `NEWS_ITEMS_PER_SOURCE` items. -/
theorem fetch_merge_spec (ips lt : Nat)
    (feed : String → String → List Entry) (code : String) :
    List.Sublist (fetchNewsForCode ips lt feed code)
      (mergedResults ips feed (pyUpper (pyStrip code))) ∧
    (fetchNewsForCode ips lt feed code).length ≤ lt ∧
    ((fetchNewsForCode ips lt feed code).map Item.link).Nodup ∧
    (∀ it ∈ fetchNewsForCode ips lt feed code,
      (mergedResults ips feed (pyUpper (pyStrip code))).find?
        (fun x => decide (x.link = it.link)) = some it) ∧
    (1 ≤ ips → ∀ label domain, (label, domain) ∈ NEWS_DOMAINS →
      (fetchNewsForCode ips lt feed code).countP
        (fun it => decide (it.src = label)) ≤ ips) := by
  have hsub : List.Sublist (fetchNewsForCode ips lt feed code)
      (mergedResults ips feed (pyUpper (pyStrip code))) := by
    simp only [fetchNewsForCode]
    exact (List.take_sublist _ _).trans (dedupByLinkAux_sublist [] _)
  refine ⟨hsub, List.length_take_le _ _, ?_, ?_, ?_⟩
  · have hnd := (dedupByLinkAux_spec []
      (mergedResults ips feed (pyUpper (pyStrip code)))).1
    exact hnd.sublist ((List.take_sublist _ _).map _)
  · intro it hit
    have hit' : it ∈ dedupByLink (mergedResults ips feed (pyUpper (pyStrip code))) :=
      List.mem_of_mem_take hit
    exact ((dedupByLinkAux_spec [] _).2 it hit').2
  · intro hips label domain hmem
    have hle : (fetchNewsForCode ips lt feed code).countP
          (fun it => decide (it.src = label)) ≤
        (mergedResults ips feed (pyUpper (pyStrip code))).countP
          (fun it => decide (it.src = label)) := List.Sublist.countP_le _ hsub
    refine hle.trans ?_
    have hcount : ∀ (lab : String) (es : List Entry), lab ≠ label →
        (collectEntries ips lab es 0).countP
          (fun it => decide (it.src = label)) = 0 := by
      intro lab es hne
      rw [List.countP_eq_zero]
      intro it hit
      have := (mem_collectEntries hit).1
      simp [this, hne]
    have hcnt_le : ∀ (lab : String) (es : List Entry),
        (collectEntries ips lab es 0).countP
          (fun it => decide (it.src = label)) ≤ ips := by
      intro lab es
      refine (List.countP_le_length _).trans ?_
      have hcl : (collectEntries ips lab es 0).length + 0 ≤ ips :=
        collectEntries_length (by omega)
      omega
    simp only [NEWS_DOMAINS, List.mem_cons, List.not_mem_nil, or_false] at hmem
    rcases hmem with h | h | h | h
    all_goals
      injection h with h1 h2
      subst h1
      simp only [mergedResults, NEWS_DOMAINS, List.map_cons, List.map_nil,
        List.flatten_cons, List.flatten_nil, List.append_nil, List.countP_append]
    · have e2 := hcount "InvestorID" (feed (pyUpper (pyStrip code)) "investor.id") (by decide)
      have e3 := hcount "CNBC" (feed (pyUpper (pyStrip code)) "cnbcindonesia.com") (by decide)
      have e4 := hcount "RTI" (feed (pyUpper (pyStrip code)) "rti.co.id") (by decide)
      have e1 := hcnt_le "IDX" (feed (pyUpper (pyStrip code)) "idx.co.id")
      omega
    · have e1 := hcount "IDX" (feed (pyUpper (pyStrip code)) "idx.co.id") (by decide)
      have e3 := hcount "CNBC" (feed (pyUpper (pyStrip code)) "cnbcindonesia.com") (by decide)
      have e4 := hcount "RTI" (feed (pyUpper (pyStrip code)) "rti.co.id") (by decide)
      have e2 := hcnt_le "InvestorID" (feed (pyUpper (pyStrip code)) "investor.id")
      omega
    · have e1 := hcount "IDX" (feed (pyUpper (pyStrip code)) "idx.co.id") (by decide)
      have e2 := hcount "InvestorID" (feed (pyUpper (pyStrip code)) "investor.id") (by decide)
      have e4 := hcount "RTI" (feed (pyUpper (pyStrip code)) "rti.co.id") (by decide)
      have e3 := hcnt_le "CNBC" (feed (pyUpper (pyStrip code)) "cnbcindonesia.com")
      omega
    · have e1 := hcount "IDX" (feed (pyUpper (pyStrip code)) "idx.co.id") (by decide)
      have e2 := hcount "InvestorID" (feed (pyUpper (pyStrip code)) "investor.id") (by decide)
      have e3 := hcount "CNBC" (feed (pyUpper (pyStrip code)) "cnbcindonesia.com") (by decide)
      have e4 := hcnt_le "RTI" (feed (pyUpper (pyStrip code)) "rti.co.id")
      omega

/-- Witness for `fetch_merge_spec` at the concrete two-entry IDX feed
with the default per-source cap 2. -/
theorem fetch_merge_spec_witness :
    1 ≤ 2 ∧ ("IDX", "idx.co.id") ∈ NEWS_DOMAINS ∧
    (fetchNewsForCode 2 6 exFeedC7 "BBCA").countP
      (fun it => decide (it.src = "IDX")) ≤ 2 :=
  ⟨by decide, by decide,
   (fetch_merge_spec 2 6 exFeedC7 "BBCA").2.2.2.2 (by decide) "IDX" "idx.co.id"
     (by decide)⟩

/-! ## Send/retry and candidate-loop lemmas -/

/-- The retried send fails only when both the formatted attempt and the
plain-text retry fail. -/
theorem sendWithRetry_error_iff (env : Env) (ch : Int) (code link msg : String) :
    sendWithRetry env ch code link msg = .error () ↔
      env.send ch msg true = .error () ∧
      env.send ch (stripMarkup msg) false = .error () := by
  unfold sendWithRetry
  cases h1 : env.send ch msg true with
  | ok v => cases v; simp
  | error v =>
    cases v
    cases h2 : env.send ch (stripMarkup msg) false with
    | ok v2 => cases v2; simp
    | error v2 => cases v2; simp

/-- Shape of a successful (possibly retried) send: the delivery goes to
the requested chat, carries the requested code and link, and its text is
either the formatted message (first attempt succeeded) or the
markup-stripped message as plain text (retry succeeded after the first
attempt failed). -/
theorem sendWithRetry_ok_shape {env : Env} {ch : Int} {code link msg : String}
    {d : Delivery} (h : sendWithRetry env ch code link msg = .ok d) :
    d.chat = ch ∧ d.code = code ∧ d.link = link ∧
    ((env.send ch msg true = .ok () ∧ d.text = msg ∧ d.markdown = true) ∨
     (env.send ch msg true = .error () ∧
      env.send ch (stripMarkup msg) false = .ok () ∧
      d.text = stripMarkup msg ∧ d.markdown = false)) := by
  unfold sendWithRetry at h
  cases h1 : env.send ch msg true with
  | ok v =>
    cases v
    rw [h1] at h
    cases h
    exact ⟨rfl, rfl, rfl, Or.inl ⟨rfl, rfl, rfl⟩⟩
  | error v =>
    cases v
    rw [h1] at h
    cases h2 : env.send ch (stripMarkup msg) false with
    | ok v2 =>
      cases v2
      rw [h2] at h
      cases h
      exact ⟨rfl, rfl, rfl, Or.inr ⟨rfl, rfl, rfl, rfl⟩⟩
    | error v2 =>
      cases v2
      rw [h2] at h
      cases h

/-- Master lemma for the candidate loop: every delivery goes to the
requested chat with the requested code and a link outside the `already`
snapshot; the final history is the fold of `recordURL` over the delivered
links; the `sent_this_run` counter advances by exactly the number of
deliveries; the per-ticker and per-chat caps hold whenever the respective
counter is strictly below its cap on entry; and no uncaught exception
escapes when the summarizer and the plain-text retry never fail. -/
theorem processItems_spec (cfg : Config) (env : Env) (chatId : Int)
    (code : String) (already : List String) :
    ∀ (items : List Item) (hist : List String) (newSent sent : Nat)
      (h2 : List String) (ds : List Delivery) (s : Nat) (e : Bool),
      processItems cfg env chatId code already items hist newSent sent =
        ⟨h2, ds, s, e⟩ →
      (∀ d ∈ ds, d.chat = chatId ∧ d.code = code ∧ d.link ∉ already) ∧
      h2 = List.foldl recordURL hist (ds.map Delivery.link) ∧
      s = sent + ds.length ∧
      (newSent < cfg.perTickerMaxNew →
        newSent + ds.length ≤ cfg.perTickerMaxNew) ∧
      (sent < cfg.perChatMaxPerRun →
        sent + ds.length ≤ cfg.perChatMaxPerRun) ∧
      ((∀ t so c u x, env.summarize t so c u x ≠ Except.error ()) →
       (∀ ch m, env.send ch m false ≠ Except.error ()) → e = false) := by
  intro items
  induction items with
  | nil =>
    intro hist newSent sent h2 ds s e heq
    simp only [processItems] at heq
    cases heq
    exact ⟨by simp, by simp, by simp, by simp; omega, by simp; omega,
      fun _ _ => rfl⟩
  | cons it rest ih =>
    intro hist newSent sent h2 ds s e heq
    simp only [processItems] at heq
    by_cases hmem : it.link ∈ already
    · rw [if_pos hmem] at heq
      exact ih hist newSent sent h2 ds s e heq
    · rw [if_neg hmem] at heq
      cases hsumR : (match env.scrape it.link with
          | some a => env.summarize (if a.title = "" then it.title else a.title)
              it.src code it.link a.text
          | none => (Except.ok none : Except Unit (Option String))) with
      | error v =>
        cases v
        rw [hsumR] at heq
        simp only [] at heq
        cases heq
        refine ⟨by simp, by simp, by simp, by simp; omega, by simp; omega,
          fun hs _ => ?_⟩
        cases hscr : env.scrape it.link with
        | some a => rw [hscr] at hsumR; exact absurd hsumR (hs _ _ _ _ _)
        | none => rw [hscr] at hsumR; cases hsumR
      | ok summary =>
        rw [hsumR] at heq
        simp only [] at heq
        cases hsend : sendWithRetry env chatId code it.link
            (composeMsg code it summary) with
        | error v =>
          cases v
          rw [hsend] at heq
          simp only [] at heq
          cases heq
          refine ⟨by simp, by simp, by simp, by simp; omega, by simp; omega,
            fun _ hr => ?_⟩
          exact absurd ((sendWithRetry_error_iff env chatId code it.link
            (composeMsg code it summary)).mp hsend).2 (hr _ _)
        | ok d =>
          rw [hsend] at heq
          simp only [] at heq
          obtain ⟨hchat, hcode, hlink, _⟩ := sendWithRetry_ok_shape hsend
          by_cases hcapT : cfg.perTickerMaxNew ≤ newSent + 1
          · rw [if_pos hcapT] at heq
            cases heq
            refine ⟨?_, ?_, by simp, by simp; omega, by simp; omega,
              fun _ _ => rfl⟩
            · intro d' hd'
              rw [List.mem_singleton] at hd'
              subst hd'
              exact ⟨hchat, hcode, hlink ▸ hmem⟩
            · simp [hlink]
          · rw [if_neg hcapT] at heq
            by_cases hcapC : cfg.perChatMaxPerRun ≤ sent + 1
            · rw [if_pos hcapC] at heq
              cases heq
              refine ⟨?_, ?_, by simp, by simp; omega, by simp; omega,
                fun _ _ => rfl⟩
              · intro d' hd'
                rw [List.mem_singleton] at hd'
                subst hd'
                exact ⟨hchat, hcode, hlink ▸ hmem⟩
              · simp [hlink]
            · rw [if_neg hcapC] at heq
              cases heq
              obtain ⟨ihds, ihh, ihs, ihT, ihC, ihE⟩ :=
                ih (recordURL hist it.link) (newSent + 1) (sent + 1)
                  (processItems cfg env chatId code already rest
                    (recordURL hist it.link) (newSent + 1) (sent + 1)).hist
                  (processItems cfg env chatId code already rest
                    (recordURL hist it.link) (newSent + 1) (sent + 1)).ds
                  (processItems cfg env chatId code already rest
                    (recordURL hist it.link) (newSent + 1) (sent + 1)).sent
                  (processItems cfg env chatId code already rest
                    (recordURL hist it.link) (newSent + 1) (sent + 1)).err
                  rfl
              refine ⟨?_, ?_, by simp [ihs]; omega, ?_, ?_, ihE⟩
              · intro d' hd'
                rcases List.mem_cons.mp hd' with he | hd'
                · subst he
                  exact ⟨hchat, hcode, hlink ▸ hmem⟩
                · exact ihds d' hd'
              · simp only [List.map_cons, List.foldl_cons, hlink]
                exact ihh
              · intro hT
                have := ihT (by omega)
                simp only [List.length_cons]
                omega
              · intro hC
                have := ihC (by omega)
                simp only [List.length_cons]
                omega

/-! ## History-fold and ticker-level lemmas -/

/-- Length of one record: the appended list, capped at 40. -/
theorem recordURL_length (h : List String) (l : String) :
    (recordURL h l).length = min 40 (h.length + 1) := by
  simp only [recordURL, takeLast, List.length_drop, List.length_append,
    List.length_singleton]
  omega

/-- Under the cap, a record is a plain append. -/
theorem recordURL_eq_append (h : List String) (l : String)
    (hlen : h.length < 40) : recordURL h l = h ++ [l] := by
  simp only [recordURL, takeLast, List.length_append, List.length_singleton]
  rw [show h.length + 1 - 40 = 0 by omega, List.drop_zero]

/-- Once a history has hit the cap, every further record keeps it there. -/
theorem length_foldl_recordURL (new : List String) :
    ∀ hist : List String, hist.length = 40 →
      (List.foldl recordURL hist new).length = 40 := by
  induction new with
  | nil => intro hist h; simpa using h
  | cons l new ih =>
    intro hist h
    simp only [List.foldl_cons]
    exact ih _ (by rw [recordURL_length]; omega)

/-- A url present in the history stays present across any sequence of
records, unless the 40-entry cap evicts it — in which case the history
sits exactly at the cap. -/
theorem foldl_recordURL_mem (url : String) (new : List String) :
    ∀ hist : List String, url ∈ hist →
      url ∈ List.foldl recordURL hist new ∨
      (List.foldl recordURL hist new).length = 40 := by
  induction new with
  | nil => intro hist h; exact Or.inl h
  | cons l new ih =>
    intro hist h
    simp only [List.foldl_cons]
    by_cases hm : url ∈ recordURL hist l
    · exact ih _ hm
    · right
      have hlen : ¬ hist.length < 40 := fun hlt =>
        hm (recordURL_eq_append hist l hlt ▸ List.mem_append_left _ h)
      exact length_foldl_recordURL new _ (by rw [recordURL_length]; omega)

/-- Reading back the history just written. -/
theorem setHist_get (st : NewsState) (c k : String) (v : List String) :
    (setHist st c k v).hist c k = v := by
  simp [setHist]

/-- Lemma `processItems_spec` lifted to one ticker processing: deliveries go to
the chat, carry the ticker's code and links outside the pre-loop history
snapshot; the new history for the (chat, code) key is the fold of
`recordURL` over the delivered links; the counter advances by the number
of deliveries; at most `AUTO_NEWS_PER_TICKER_MAX_NEW` deliveries happen
(cap ≥ 1); the per-chat cap is respected when entered below it; and no
exception escapes when the summarizer and plain-text retry never fail. -/
theorem processTicker_spec (cfg : Config) (env : Env) (chatS : String)
    (chatId : Int) (tkr : String) (st : NewsState) (sent : Nat) :
    (∀ d ∈ (processTicker cfg env chatS chatId tkr st sent).ds,
      d.chat = chatId ∧ d.code = codeOnly tkr ∧
      d.link ∉ st.hist chatS (codeOnly tkr)) ∧
    (processTicker cfg env chatS chatId tkr st sent).st.hist chatS (codeOnly tkr) =
      List.foldl recordURL (st.hist chatS (codeOnly tkr))
        ((processTicker cfg env chatS chatId tkr st sent).ds.map Delivery.link) ∧
    (processTicker cfg env chatS chatId tkr st sent).sent =
      sent + (processTicker cfg env chatS chatId tkr st sent).ds.length ∧
    (1 ≤ cfg.perTickerMaxNew →
      (processTicker cfg env chatS chatId tkr st sent).ds.length ≤
        cfg.perTickerMaxNew) ∧
    (sent < cfg.perChatMaxPerRun →
      sent + (processTicker cfg env chatS chatId tkr st sent).ds.length ≤
        cfg.perChatMaxPerRun) ∧
    ((∀ t so c u x, env.summarize t so c u x ≠ Except.error ()) →
     (∀ ch m, env.send ch m false ≠ Except.error ()) →
     (processTicker cfg env chatS chatId tkr st sent).err = false) := by
  obtain ⟨hds, hh, hs, hT, hC, hE⟩ :=
    processItems_spec cfg env chatId (codeOnly tkr)
      (st.hist chatS (codeOnly tkr))
      (fetchNewsForCode cfg.itemsPerSource cfg.limitTotal env.feed (codeOnly tkr))
      (st.hist chatS (codeOnly tkr)) 0 sent
      (processItems cfg env chatId (codeOnly tkr)
        (st.hist chatS (codeOnly tkr))
        (fetchNewsForCode cfg.itemsPerSource cfg.limitTotal env.feed (codeOnly tkr))
        (st.hist chatS (codeOnly tkr)) 0 sent).hist
      (processItems cfg env chatId (codeOnly tkr)
        (st.hist chatS (codeOnly tkr))
        (fetchNewsForCode cfg.itemsPerSource cfg.limitTotal env.feed (codeOnly tkr))
        (st.hist chatS (codeOnly tkr)) 0 sent).ds
      (processItems cfg env chatId (codeOnly tkr)
        (st.hist chatS (codeOnly tkr))
        (fetchNewsForCode cfg.itemsPerSource cfg.limitTotal env.feed (codeOnly tkr))
        (st.hist chatS (codeOnly tkr)) 0 sent).sent
      (processItems cfg env chatId (codeOnly tkr)
        (st.hist chatS (codeOnly tkr))
        (fetchNewsForCode cfg.itemsPerSource cfg.limitTotal env.feed (codeOnly tkr))
        (st.hist chatS (codeOnly tkr)) 0 sent).err
      rfl
  simp only [processTicker, setHist_get]
  exact ⟨hds, hh, hs, fun h1 => by have := hT h1; omega, hC, hE⟩

/-! ## C1: the dedup invariant -/

/-- C1: if a url is present in the loaded (chat, ticker) history at the
moment a scheduler run processes that ticker, then that processing sends
no message for the url and does not append it again — the only appends
are `recordURL` calls on other links — and afterwards the url is either
still in the history or was evicted by the 40-entry cap (the history then
sits exactly at the cap).  Hence a recorded url is never delivered a
second time to the same (chat, ticker) in a later run until the cap
evicts it. -/
theorem dedup_no_resend (cfg : Config) (env : Env) (chatS : String)
    (chatId : Int) (tkr : String) (st : NewsState) (sent : Nat) (url : String)
    (hu : url ∈ st.hist chatS (codeOnly tkr)) :
    (∀ d ∈ (processTicker cfg env chatS chatId tkr st sent).ds, d.link ≠ url) ∧
    (∃ new, url ∉ new ∧
      (processTicker cfg env chatS chatId tkr st sent).st.hist chatS (codeOnly tkr) =
        List.foldl recordURL (st.hist chatS (codeOnly tkr)) new) ∧
    (url ∈ (processTicker cfg env chatS chatId tkr st sent).st.hist chatS (codeOnly tkr) ∨
      ((processTicker cfg env chatS chatId tkr st sent).st.hist chatS (codeOnly tkr)).length = 40) := by
  obtain ⟨hds, hh, -, -, -, -⟩ :=
    processTicker_spec cfg env chatS chatId tkr st sent
  have hnot : ∀ d ∈ (processTicker cfg env chatS chatId tkr st sent).ds,
      d.link ≠ url := fun d hd he => (hds d hd).2.2 (he ▸ hu)
  refine ⟨hnot, ⟨_, ?_, hh⟩, ?_⟩
  · intro hmem
    obtain ⟨d, hd, hdl⟩ := List.mem_map.mp hmem
    exact hnot d hd hdl
  · rw [hh]
    exact foldl_recordURL_mem url _ _ hu

/-- Witness for `dedup_no_resend`: with `u1` already in the history and
the feed returning `u1` again, the ticker processing delivers nothing for
`u1`. -/
theorem dedup_no_resend_witness :
    "u1" ∈ exStC1.hist "100" "BBCA" ∧
    (∀ d ∈ (processTicker cfgDefault exEnvC1 "100" 100 "BBCA" exStC1 0).ds,
      d.link ≠ "u1") :=
  ⟨by decide,
   (dedup_no_resend cfgDefault exEnvC1 "100" 100 "BBCA" exStC1 0 "u1"
     (by decide)).1⟩

/-! ## Chat-level lemmas -/

/-- The ticker loop of one chat: the counter advances by the number of
deliveries, the per-chat cap holds when entered below it, every delivery
goes to the chat, and no exception escapes under a well-behaved
summarizer and plain-text send. -/
theorem processTickers_spec (cfg : Config) (env : Env) (chatS : String)
    (chatId : Int) :
    ∀ (tickers : List String) (st : NewsState) (sent : Nat),
      (processTickers cfg env chatS chatId tickers st sent).sent =
        sent + (processTickers cfg env chatS chatId tickers st sent).ds.length ∧
      (sent < cfg.perChatMaxPerRun →
        sent + (processTickers cfg env chatS chatId tickers st sent).ds.length ≤
          cfg.perChatMaxPerRun) ∧
      (∀ d ∈ (processTickers cfg env chatS chatId tickers st sent).ds,
        d.chat = chatId) ∧
      ((∀ t so c u x, env.summarize t so c u x ≠ Except.error ()) →
       (∀ ch m, env.send ch m false ≠ Except.error ()) →
       (processTickers cfg env chatS chatId tickers st sent).err = false) := by
  intro tickers
  induction tickers with
  | nil =>
    intro st sent
    refine ⟨by simp [processTickers], ?_, by simp [processTickers], ?_⟩
    · simp only [processTickers, List.length_nil]
      omega
    · intro _ _
      simp [processTickers]
  | cons tkr rest ih =>
    intro st sent
    obtain ⟨hTds, hTh, hTs, hTT, hTC, hTE⟩ :=
      processTicker_spec cfg env chatS chatId tkr st sent
    simp only [processTickers]
    by_cases herr : (processTicker cfg env chatS chatId tkr st sent).err = true
    · rw [if_pos herr]
      refine ⟨hTs, hTC, fun d hd => (hTds d hd).1, fun h1 h2 => ?_⟩
      rw [hTE h1 h2] at herr
      exact absurd herr (by decide)
    · rw [if_neg herr]
      by_cases hcap : cfg.perChatMaxPerRun ≤
          (processTicker cfg env chatS chatId tkr st sent).sent
      · rw [if_pos hcap]
        exact ⟨hTs, hTC, fun d hd => (hTds d hd).1, fun _ _ => rfl⟩
      · rw [if_neg hcap]
        obtain ⟨ihs, ihC, ihchat, ihE⟩ :=
          ih (processTicker cfg env chatS chatId tkr st sent).st
            (processTicker cfg env chatS chatId tkr st sent).sent
        refine ⟨?_, ?_, ?_, ihE⟩
        · simp only [List.length_append]
          omega
        · intro hlt
          have hrec := ihC (by omega)
          simp only [List.length_append]
          omega
        · intro d hd
          rcases List.mem_append.mp hd with hd | hd
          · exact (hTds d hd).1
          · exact ihchat d hd

/-! ## C3: the delivery caps -/

/-- C3 counterexample: with the default per-ticker cap 1, a watchlist in
which two entries normalise to the same ticker code receives two new
deliveries for that code within a single run — the per-ticker cap is
enforced per occurrence in the ticker list, not per ticker code. -/
theorem caps_counterexample :
    ¬ ((jobAutoNewsWrapper cfgDefault exEnvC3 true "" 0 exWatchC3
          exStEmpty).ds.countP
        (fun d => decide (d.chat = 100 ∧ d.code = "BBCA")) ≤
      cfgDefault.perTickerMaxNew) := by
  decide

/-- C3 amended: provided the caps are at least 1, the messages sent while
processing one watchlist chat entry never exceed
`AUTO_NEWS_PER_CHAT_MAX_PER_RUN`, and each single processing of a ticker
yields at most `AUTO_NEWS_PER_TICKER_MAX_NEW` new deliveries (so a ticker
code occurring once in the chat's list stays within the per-ticker cap
for the run; duplicate occurrences each get their own allowance, and a
cap configured as 0 still lets one message through). -/
theorem caps_spec (cfg : Config) (env : Env) (chatS : String) (chatId : Int) :
    (1 ≤ cfg.perChatMaxPerRun → ∀ (tickers : List String) (st : NewsState),
      (processTickers cfg env chatS chatId tickers st 0).ds.length ≤
        cfg.perChatMaxPerRun) ∧
    (1 ≤ cfg.perTickerMaxNew → ∀ (tkr : String) (st : NewsState) (sent : Nat),
      (processTicker cfg env chatS chatId tkr st sent).ds.length ≤
        cfg.perTickerMaxNew) := by
  constructor
  · intro hcap tickers st
    have := (processTickers_spec cfg env chatS chatId tickers st 0).2.1
      (by omega)
    omega
  · intro hcap tkr st sent
    exact (processTicker_spec cfg env chatS chatId tkr st sent).2.2.2.1 hcap

/-- Witness for `caps_spec` on the concrete duplicate-code watchlist. -/
theorem caps_spec_witness :
    (processTickers cfgDefault exEnvC3 "100" 100 ["BBCA", "BBCA.JK"]
        exStEmpty 0).ds.length ≤ cfgDefault.perChatMaxPerRun ∧
    (processTicker cfgDefault exEnvC3 "100" 100 "BBCA" exStEmpty 0).ds.length ≤
      cfgDefault.perTickerMaxNew :=
  ⟨(caps_spec cfgDefault exEnvC3 "100" 100).1 (by decide) ["BBCA", "BBCA.JK"]
      exStEmpty,
   (caps_spec cfgDefault exEnvC3 "100" 100).2 (by decide) "BBCA" exStEmpty 0⟩

/-! ## C4: the send retry -/

/-- C4 counterexample: when the formatted send *and* its plain-text retry
both fail, the exception is not swallowed — the whole run aborts
(`err = true`), the final save is skipped, and the url is *not* appended
to the persisted (chat, ticker) history. -/
theorem send_retry_counterexample :
    (jobAutoNewsWrapper cfgDefault exEnvC4 true "" 0 exWatchOne
        exStEmpty).err = true ∧
    (jobAutoNewsWrapper cfgDefault exEnvC4 true "" 0 exWatchOne
        exStEmpty).st.hist "100" "BBCA" = [] := by
  constructor
  · decide
  · decide

/-- C4 amended: a failed formatted send is retried exactly once, with the
`*` and `_` markup characters stripped and plain-text mode; if the retry
succeeds the item is delivered (and the pipeline then records its url);
if the retry also fails, the exception propagates uncaught — the run
aborts without saving and the url is not recorded. -/
theorem send_retry_spec (env : Env) (ch : Int) (code link msg : String) :
    (env.send ch msg true = .ok () →
      sendWithRetry env ch code link msg = .ok ⟨ch, code, link, msg, true⟩) ∧
    (env.send ch msg true = .error () →
      env.send ch (stripMarkup msg) false = .ok () →
      sendWithRetry env ch code link msg =
        .ok ⟨ch, code, link, stripMarkup msg, false⟩) ∧
    (env.send ch msg true = .error () →
      env.send ch (stripMarkup msg) false = .error () →
      sendWithRetry env ch code link msg = .error ()) := by
  refine ⟨?_, ?_, ?_⟩
  · intro h1
    unfold sendWithRetry
    rw [h1]
  · intro h1 h2
    unfold sendWithRetry
    rw [h1, h2]
  · intro h1 h2
    unfold sendWithRetry
    rw [h1, h2]

/-- Witness for `send_retry_spec`: a message whose formatted send fails
goes out exactly once more, stripped of markup, in plain text. -/
theorem send_retry_spec_witness :
    exEnvC4b.send 100 "m*s_g" true = .error () ∧
    exEnvC4b.send 100 (stripMarkup "m*s_g") false = .ok () ∧
    sendWithRetry exEnvC4b 100 "BBCA" "l1" "m*s_g" =
      .ok ⟨100, "BBCA", "l1", stripMarkup "m*s_g", false⟩ :=
  ⟨rfl, rfl, (send_retry_spec exEnvC4b 100 "BBCA" "l1" "m*s_g").2.1 rfl rfl⟩

/-! ## C5: failure propagation -/

/-- C5 counterexample: a summarizer exception on the *first* candidate
aborts the entire run — nothing is delivered (the remaining candidate is
never reached) and `err = true` means the final news-state save is
skipped.  The failure propagates well past the item's iteration. -/
theorem contain_failures_counterexample :
    (jobAutoNewsWrapper cfgDefault exEnvC5 true "" 0 exWatchOne
        exStEmpty).err = true ∧
    (jobAutoNewsWrapper cfgDefault exEnvC5 true "" 0 exWatchOne
        exStEmpty).ds = [] := by
  constructor
  · decide
  · decide

/-- The chat loop propagates the no-exception guarantee. -/
theorem runChats_err (cfg : Config) (env : Env)
    (hs : ∀ t so c u x, env.summarize t so c u x ≠ Except.error ())
    (hr : ∀ ch m, env.send ch m false ≠ Except.error ()) :
    ∀ (watch : List (String × Option (List String))) (st : NewsState),
      (runChats cfg env watch st).2.2 = false := by
  intro watch
  induction watch with
  | nil => intro st; simp [runChats]
  | cons p rest ih =>
    intro st
    obtain ⟨key, tv⟩ := p
    simp only [runChats]
    cases hint : pyInt key with
    | none => exact ih st
    | some cid =>
      simp only []
      by_cases hallow : cfg.allowedGroupIds ≠ [] ∧ cid ∉ cfg.allowedGroupIds
      · rw [if_pos hallow]
        exact ih st
      · rw [if_neg hallow]
        have hE := (processTickers_spec cfg env key cid ((tv.getD []).take 25)
          st 0).2.2.2 hs hr
        by_cases herr :
            (processTickers cfg env key cid ((tv.getD []).take 25) st 0).err = true
        · rw [hE] at herr
          exact absurd herr (by decide)
        · rw [if_neg herr]
          exact ih _

/-- C5 amended: an exception raised by the summarizer or by the
plain-text retry send is *not* contained — it aborts the whole run
including the final save (see `contain_failures_counterexample`); what
does hold is the converse containment: a failure of the formatted send
alone is caught and retried, the scraper and per-source feed failures are
absorbed inside those collaborators (modelled total), and therefore a run
whose summarizer and plain-text sends never raise completes without
aborting and performs its final save. -/
theorem run_no_abort_spec (cfg : Config) (env : Env) (enabled : Bool)
    (quietCfg : String) (now : Nat)
    (watch : List (String × Option (List String))) (st : NewsState)
    (hs : ∀ t so c u x, env.summarize t so c u x ≠ Except.error ())
    (hr : ∀ ch m, env.send ch m false ≠ Except.error ()) :
    (jobAutoNewsWrapper cfg env enabled quietCfg now watch st).err = false := by
  unfold jobAutoNewsWrapper
  by_cases hen : enabled = false
  · rw [if_pos hen]
  · rw [if_neg hen]
    by_cases hq : withinQuietHoursWib quietCfg now = false
    · rw [if_pos hq]
    · rw [if_neg hq]
      have hfin := runChats_err cfg env hs hr
        (watch.filter (fun p =>
          match pyInt p.1 with
          | some cid => st.toggles cid
          | none => false)) st
      simp [hfin]

/-- Witness for `run_no_abort_spec`: a run over a benign environment
completes without aborting. -/
theorem run_no_abort_spec_witness :
    (jobAutoNewsWrapper cfgDefault exEnvC3 true "" 0 exWatchOne
        exStEmpty).err = false :=
  run_no_abort_spec cfgDefault exEnvC3 true "" 0 exWatchOne exStEmpty
    (fun _ _ _ _ _ => by simp [exEnvC3]) (fun _ _ => by simp [exEnvC3])

/-! ## Character, strip and ordering lemmas for the watchlist -/

/-- The map `Char.toNat` is injective. -/
theorem char_eq_of_toNat_eq {a b : Char} (h : a.toNat = b.toNat) : a = b :=
  Char.eq_of_val_eq (UInt32.eq_of_toBitVec_eq (BitVec.eq_of_toNat_eq h))

/-- Evaluating `Char.ofNat` on a plainly valid scalar value. -/
theorem toNat_charOfNat {n : Nat} (h : n < 55296) : (Char.ofNat n).toNat = n := by
  have hv : n.isValidChar := Or.inl h
  simp only [Char.ofNat]
  rw [dif_pos hv]
  rfl

/-- The map `toUpper` fixes everything outside `a`-`z`. -/
theorem toUpper_eq_self {c : Char} (h : ¬(97 ≤ c.toNat ∧ c.toNat ≤ 122)) :
    Char.toUpper c = c := by
  simp only [Char.toUpper]
  rw [if_neg h]

/-- The map `toUpper` on `a`-`z` subtracts 32 from the code point. -/
theorem toNat_toUpper_lower {c : Char} (h1 : 97 ≤ c.toNat) (h2 : c.toNat ≤ 122) :
    (Char.toUpper c).toNat = c.toNat - 32 := by
  simp only [Char.toUpper]
  rw [if_pos ⟨h1, h2⟩]
  exact toNat_charOfNat (by omega)

/-- Upper-casing never turns whitespace into non-whitespace or vice
versa. -/
theorem isSpc_toUpper (c : Char) : isSpc (Char.toUpper c) = isSpc c := by
  by_cases h : 97 ≤ c.toNat ∧ c.toNat ≤ 122
  · have ht := toNat_toUpper_lower h.1 h.2
    simp only [isSpc, decide_eq_decide]
    rw [ht]
    omega
  · rw [toUpper_eq_self h]

/-- Upper-casing is idempotent. -/
theorem toUpper_idem (c : Char) :
    Char.toUpper (Char.toUpper c) = Char.toUpper c := by
  by_cases h : 97 ≤ c.toNat ∧ c.toNat ≤ 122
  · have ht := toNat_toUpper_lower h.1 h.2
    exact toUpper_eq_self (by omega)
  · rw [toUpper_eq_self h, toUpper_eq_self h]

/-- Applying `dropWhile` twice equals applying it once. -/
theorem dropWhile_idem (p : α → Bool) (l : List α) :
    (l.dropWhile p).dropWhile p = l.dropWhile p := by
  induction l with
  | nil => rfl
  | cons a t ih =>
    by_cases h : p a
    · rw [List.dropWhile_cons_of_pos h]
      exact ih
    · rw [List.dropWhile_cons_of_neg h, List.dropWhile_cons_of_neg h]

/-- The head surviving a `dropWhile` fails the predicate. -/
theorem head?_dropWhile_false (p : α → Bool) : ∀ (l : List α) (a : α),
    (l.dropWhile p).head? = some a → p a = false := by
  intro l
  induction l with
  | nil => intro a h; simp at h
  | cons b t ih =>
    intro a h
    by_cases hb : p b
    · rw [List.dropWhile_cons_of_pos hb] at h
      exact ih a h
    · rw [List.dropWhile_cons_of_neg hb, List.head?_cons] at h
      cases h
      simpa using hb

/-- A two-sided strip is a prefix of the front-stripped list. -/
theorem stripL_isPrefix (l : List Char) :
    List.IsPrefix (stripL l) (stripFront l) := by
  have hsuf : List.IsSuffix ((stripFront l).reverse.dropWhile isSpc)
      (stripFront l).reverse := List.dropWhile_suffix isSpc
  obtain ⟨t, ht⟩ := hsuf
  exact ⟨t.reverse, by
    simp only [stripL]
    rw [← List.reverse_append, ht, List.reverse_reverse]⟩

/-- Stripping is idempotent. -/
theorem stripL_idem (l : List Char) : stripL (stripL l) = stripL l := by
  have hfront : (stripL l).dropWhile isSpc = stripL l := by
    cases hsl : stripL l with
    | nil => rfl
    | cons a t =>
      obtain ⟨t2, ht2⟩ := hsl ▸ stripL_isPrefix l
      have hh : (stripFront l).head? = some a := by
        rw [← ht2]; rfl
      have ha := head?_dropWhile_false isSpc l a hh
      rw [List.dropWhile_cons_of_neg (by simp [ha])]
  show (((stripL l).dropWhile isSpc).reverse.dropWhile isSpc).reverse = stripL l
  rw [hfront]
  have hback : (stripL l).reverse = ((stripFront l).reverse).dropWhile isSpc := by
    simp only [stripL, List.reverse_reverse]
  rw [hback, dropWhile_idem, ← hback, List.reverse_reverse]

/-- Stripping commutes with a character map that preserves
whitespace-ness. -/
theorem stripL_map (f : Char → Char) (hf : ∀ c, isSpc (f c) = isSpc c)
    (l : List Char) : stripL (l.map f) = (stripL l).map f := by
  have hfun : (isSpc ∘ f) = isSpc := funext hf
  have hdw : ∀ m : List Char,
      (m.map f).dropWhile isSpc = (m.dropWhile isSpc).map f := by
    intro m
    rw [List.dropWhile_map, hfun]
  simp only [stripL, stripFront]
  rw [hdw l, ← List.map_reverse, hdw, ← List.map_reverse]

/-- Strings with equal character data are equal. -/
theorem string_data_eq : ∀ {s t : String}, s.data = t.data → s = t := by
  intro s t h
  cases s
  cases t
  cases h
  rfl

/-- Python `strip` is idempotent. -/
theorem pyStrip_pyStrip (s : String) : pyStrip (pyStrip s) = pyStrip s :=
  congrArg String.mk (stripL_idem s.data)

/-- Python `upper` and `strip` commute. -/
theorem pyUpper_pyStrip (s : String) :
    pyUpper (pyStrip s) = pyStrip (pyUpper s) :=
  (congrArg String.mk (stripL_map Char.toUpper isSpc_toUpper s.data)).symm

/-- Python `upper` is idempotent. -/
theorem pyUpper_pyUpper (s : String) : pyUpper (pyUpper s) = pyUpper s := by
  apply congrArg String.mk
  show (s.data.map Char.toUpper).map Char.toUpper = s.data.map Char.toUpper
  rw [List.map_map]
  exact List.map_congr_left (fun a _ => toUpper_idem a)

/-- Upper-casing cannot empty a stripped string. -/
theorem pyStrip_pyUpper_ne {s : String} (h : pyStrip s ≠ "") :
    pyStrip (pyUpper s) ≠ "" := by
  rw [← pyUpper_pyStrip]
  intro he
  apply h
  have hd := congrArg String.data he
  simp only [pyUpper, pyStrip] at hd ⊢
  rw [List.map_eq_nil_iff] at hd
  rw [hd]

/-- Python's string `<` is irreflexive. -/
theorem lexLt_irrefl : ∀ l : List Char, lexLt l l = false := by
  intro l
  induction l with
  | nil => rfl
  | cons a t ih =>
    simp only [lexLt]
    rw [if_neg (by omega), if_neg (by omega)]
    exact ih

/-- Python's string `<` is transitive. -/
theorem lexLt_trans : ∀ a b c : List Char,
    lexLt a b = true → lexLt b c = true → lexLt a c = true := by
  intro a
  induction a with
  | nil =>
    intro b c h1 h2
    cases b with
    | nil => simp [lexLt] at h1
    | cons y ys =>
      cases c with
      | nil => simp [lexLt] at h2
      | cons z zs => rfl
  | cons x xs ih =>
    intro b c h1 h2
    cases b with
    | nil => simp [lexLt] at h1
    | cons y ys =>
      cases c with
      | nil => simp [lexLt] at h2
      | cons z zs =>
        simp only [lexLt] at h1 h2 ⊢
        by_cases hxy : x.toNat < y.toNat
        · by_cases hyz : y.toNat < z.toNat
          · rw [if_pos (by omega)]
          · by_cases hzy : z.toNat < y.toNat
            · rw [if_neg hyz, if_pos hzy] at h2
              cases h2
            · rw [if_pos (by omega)]
        · by_cases hyx : y.toNat < x.toNat
          · rw [if_neg hxy, if_pos hyx] at h1
            cases h1
          · rw [if_neg hxy, if_neg hyx] at h1
            by_cases hyz : y.toNat < z.toNat
            · rw [if_pos (by omega)]
            · by_cases hzy : z.toNat < y.toNat
              · rw [if_neg hyz, if_pos hzy] at h2
                cases h2
              · rw [if_neg hyz, if_neg hzy] at h2
                rw [if_neg (by omega), if_neg (by omega)]
                exact ih ys zs h1 h2

/-- Python's string `<` is total on distinct lists. -/
theorem lexLt_connex : ∀ a b : List Char,
    a ≠ b → lexLt a b = false → lexLt b a = true := by
  intro a
  induction a with
  | nil =>
    intro b hne h
    cases b with
    | nil => exact absurd rfl hne
    | cons y ys => simp [lexLt] at h
  | cons x xs ih =>
    intro b hne h
    cases b with
    | nil => rfl
    | cons y ys =>
      simp only [lexLt] at h ⊢
      by_cases hxy : x.toNat < y.toNat
      · rw [if_pos hxy] at h
        cases h
      · by_cases hyx : y.toNat < x.toNat
        · rw [if_pos hyx]
        · rw [if_neg hxy, if_neg hyx] at h
          rw [if_neg hyx, if_neg hxy]
          have hxyeq : x = y := char_eq_of_toNat_eq (by omega)
          subst hxyeq
          have htail : xs ≠ ys := fun he => hne (by rw [he])
          exact ih ys htail h

/-- The order `pyStrLt` is irreflexive. -/
theorem pyStrLt_irrefl (s : String) : pyStrLt s s = false :=
  lexLt_irrefl s.data

/-- The order `pyStrLt` is transitive. -/
theorem pyStrLt_trans {a b c : String} (h1 : pyStrLt a b = true)
    (h2 : pyStrLt b c = true) : pyStrLt a c = true :=
  lexLt_trans a.data b.data c.data h1 h2

/-- The order `pyStrLt` is total on distinct strings. -/
theorem pyStrLt_connex {a b : String} (h : a ≠ b)
    (h2 : pyStrLt a b = false) : pyStrLt b a = true :=
  lexLt_connex a.data b.data (fun he => h (string_data_eq he)) h2

/-- Membership after an insert. -/
theorem mem_insertSortedDedup {x a : String} :
    ∀ l : List String, a ∈ insertSortedDedup x l ↔ a = x ∨ a ∈ l := by
  intro l
  induction l with
  | nil => simp [insertSortedDedup]
  | cons y ys ih =>
    simp only [insertSortedDedup]
    by_cases hxy : x = y
    · rw [if_pos hxy]
      subst hxy
      simp only [List.mem_cons]
      tauto
    · rw [if_neg hxy]
      by_cases hlt : pyStrLt x y = true
      · rw [if_pos hlt]
        simp only [List.mem_cons]
      · rw [if_neg hlt]
        simp only [List.mem_cons, ih]
        tauto

/-- Inserting preserves strict sortedness. -/
theorem pairwise_insertSortedDedup {x : String} :
    ∀ {l : List String}, l.Pairwise (fun a b => pyStrLt a b = true) →
      (insertSortedDedup x l).Pairwise (fun a b => pyStrLt a b = true) := by
  intro l
  induction l with
  | nil =>
    intro _
    simp [insertSortedDedup]
  | cons y ys ih =>
    intro hp
    rw [List.pairwise_cons] at hp
    obtain ⟨hy, hys⟩ := hp
    simp only [insertSortedDedup]
    by_cases hxy : x = y
    · rw [if_pos hxy]
      exact List.pairwise_cons.mpr ⟨hy, hys⟩
    · rw [if_neg hxy]
      by_cases hlt : pyStrLt x y = true
      · rw [if_pos hlt]
        refine List.pairwise_cons.mpr ⟨?_, List.pairwise_cons.mpr ⟨hy, hys⟩⟩
        intro z hz
        rcases List.mem_cons.mp hz with rfl | hz
        · exact hlt
        · exact pyStrLt_trans hlt (hy z hz)
      · rw [if_neg hlt]
        have hyx : pyStrLt y x = true :=
          pyStrLt_connex hxy (by simpa using hlt)
        refine List.pairwise_cons.mpr ⟨?_, ih hys⟩
        intro z hz
        rcases (mem_insertSortedDedup ys).mp hz with rfl | hz
        · exact hyx
        · exact hy z hz

/-- Python `sorted(set(...))` is strictly sorted in Python's string order. -/
theorem sortedDedup_pairwise (xs : List String) :
    (sortedDedup xs).Pairwise (fun a b => pyStrLt a b = true) := by
  induction xs with
  | nil => simp [sortedDedup]
  | cons x t ih => exact pairwise_insertSortedDedup ih

/-- Python `sorted(set(...))` has exactly the input's elements. -/
theorem mem_sortedDedup {a : String} :
    ∀ xs : List String, a ∈ sortedDedup xs ↔ a ∈ xs := by
  intro xs
  induction xs with
  | nil => simp [sortedDedup]
  | cons x t ih =>
    show a ∈ insertSortedDedup x (sortedDedup t) ↔ _
    rw [mem_insertSortedDedup, ih]
    simp [List.mem_cons]

/-- Python `sorted(set(...))` is duplicate-free. -/
theorem sortedDedup_nodup (xs : List String) : (sortedDedup xs).Nodup :=
  (sortedDedup_pairwise xs).imp (fun hab heq => by
    subst heq
    rw [pyStrLt_irrefl] at hab
    cases hab)

/-! ## C10: reading a chat's watchlist -/

/-- C10 counterexample: a watchlist file holding the valid JSON document
`[]` makes `get_watchlist` raise (`data.setdefault("chats", {})` is an
`AttributeError` on a list) instead of returning a list — reading is
*not* total over every watchlist file. -/
theorem watchlist_counterexample :
    readWatchlist exParseC10 (some "[]") 100 = .error () := rfl

/-- C10 amended: whenever the watchlist document is a JSON object whose
`chats` member — if present — is itself an object (which includes absent
and unparseable files, replaced by the `{"chats": {}}` default), reading
a chat's watchlist returns a list that is strictly sorted in Python's
string order, pairwise distinct, and whose entries are upper-cased,
whitespace-trimmed and nonempty, regardless of the case, duplication or
whitespace of the stored entries; and a stored per-chat value that is not
a list yields the empty list.  A document violating that shape instead
raises a type error (see `watchlist_counterexample`). -/
theorem getWatchlist_spec (kvs : List (String × JVal)) (chatId : Int)
    (hc : ∀ v, lookupJ "chats" kvs = some v → ∃ ckvs, v = JVal.jobj ckvs) :
    ∃ l, getWatchlist (.jobj kvs) chatId = .ok l ∧
      l.Pairwise (fun a b => pyStrLt a b = true) ∧
      l.Nodup ∧
      ∀ s ∈ l, pyStrip s = s ∧ pyUpper s = s ∧ s ≠ "" := by
  have hobj : ∃ ckvs, (lookupJ "chats" kvs).getD (.jobj []) = JVal.jobj ckvs := by
    cases hl : lookupJ "chats" kvs with
    | none => exact ⟨[], rfl⟩
    | some v =>
      obtain ⟨ckvs, hv⟩ := hc v hl
      exact ⟨ckvs, by rw [Option.getD_some, hv]⟩
  obtain ⟨ckvs, hckvs⟩ := hobj
  simp only [getWatchlist, hckvs]
  refine ⟨_, rfl, sortedDedup_pairwise _, sortedDedup_nodup _, ?_⟩
  intro s hs
  rw [mem_sortedDedup] at hs
  obtain ⟨x, hx, hsx⟩ := List.mem_map.mp hs
  have hkept : pyStrip (pyStr x) ≠ "" := by
    have := List.of_mem_filter hx
    simpa using this
  subst hsx
  refine ⟨pyStrip_pyStrip _, ?_, pyStrip_pyUpper_ne hkept⟩
  rw [← pyUpper_pyStrip, pyUpper_pyUpper, pyUpper_pyStrip]

/-- Witness for `getWatchlist_spec` on the concrete messy document. -/
theorem getWatchlist_spec_witness :
    ∃ l, getWatchlist (.jobj exDocC10) 100 = .ok l ∧
      l.Pairwise (fun a b => pyStrLt a b = true) ∧
      l.Nodup ∧
      ∀ s ∈ l, pyStrip s = s ∧ pyUpper s = s ∧ s ≠ "" :=
  getWatchlist_spec exDocC10 100
    (fun _ hv => ⟨_, (Option.some.inj hv).symm⟩)
